import Mathlib

set_option maxRecDepth 100000

/-!
Shallow embedding of the Hours-of-Service (HOS) compliance engine of
`src/backend/logs/hos.py`.

Modelling conventions (all justified by the source):
* Instants (`datetime` values with a fixed UTC offset) are modelled as `Int`
  microseconds since an epoch.  `timedelta.total_seconds() // 60` on such
  values is exactly floor division of the microsecond difference by
  60 000 000, which `Int.fdiv` computes.
* Day keys (`"YYYY-MM-DD"` strings) are modelled as `Nat` day indices.
  The map from valid day strings to day indices is injective and
  order-preserving (lexical order on such day strings is chronological
  order), and the parsed start-of-day instant is `dayStart`, so nothing
  observable is lost.
* Hour totals are produced by `round(minutes / 60.0, 2)`; every such value
  is an exact multiple of 0.01, so hours are represented as `Nat`
  centihours (hundredths of an hour).  `minutes / 60` in centihours is
  `5 * minutes / 3`, whose fractional part is never 1/2, so the rounding
  has no ties and equals `(10 * minutes + 3) / 6` in `Nat` division.
  The source converts a day hour total back to whole minutes with the float
  expression `int((driving_hours + on_duty_hours) * 60)`; `dayOnDutyMin` is
  its exact-decimal value, `3 * centihours / 5` floored.  The float
  evaluation can fall one minute below this exact value and never exceeds
  it, so the weekly-threshold statement of claim C4 is a pair of one-sided
  bounds with a slack of one minute per window day (eight in total) instead
  of a sharp biconditional at the 4200-minute threshold.
* `entries_by_day` is a Python `dict`; it is modelled as an insertion-ordered
  association list `List (Nat × List LogEntry)`.  Theorems that depend on
  the `dict` key-uniqueness invariant take `(keysOf m).Nodup` as a
  hypothesis.
* The `message` field of `Violation` is presentation-only free text (spec
  section 6) inspected by no logic; it is omitted from the model, keeping
  `code` and `day`.
-/

inductive LogStatus where
  | OFF
  | SLEEPER
  | DRIVING
  | ON_DUTY
deriving DecidableEq, Repr

structure LogEntry where
  timestamp : Int
  status : LogStatus
deriving DecidableEq, Repr

/-- Daily totals in centihours (hundredths of an hour). -/
structure DailyTotals where
  off_hours : Nat
  sleeper_hours : Nat
  driving_hours : Nat
  on_duty_hours : Nat
deriving DecidableEq, Repr

structure Violation where
  code : String
  day : Nat
deriving DecidableEq, Repr

/-- Instant of day T00:00:00+00:00 in microseconds. -/
def dayStart (d : Nat) : Int := (d : Int) * 86400000000

/-- Instant of day T23:59:59.999999+00:00 in microseconds. -/
def dayEnd (d : Nat) : Int := dayStart d + 86399999999

/-- The rounding helper of hos.py lines 31-32, producing centihours: minutes
    over 60 rounded to two decimals, with no ties possible. -/
def round_hours (minutes : Nat) : Nat := (10 * minutes + 3) / 6

/-- Whole minutes of an interval, clamped at zero: the max of 0 and the floor
    of the difference in seconds over 60 (hos.py lines 71 and 130). -/
def ivMinutes (t0 t1 : Int) : Nat := ((t1 - t0).fdiv 60000000).toNat

/-- The clamping loop of hos.py lines 45-52 (duplicated at lines 105-111):
    skip entries before the window, stop at the first entry after it. -/
def clampEntries (start en : Int) : List LogEntry → List (Int × LogStatus)
  | [] => []
  | e :: rest =>
    if e.timestamp < start then clampEntries start en rest
    else if en < e.timestamp then []
    else (e.timestamp, e.status) :: clampEntries start en rest

/-- Seeding at day start and terminal close at day end, hos.py lines 59-64
    (duplicated at lines 114-117).  The source first inserts the seed and then
    inspects the LAST element, which prepending a seed never changes, so the
    last element is read off the original nonempty list here. -/
def seedAndClose (start en : Int) : List (Int × LogStatus) → List (Int × LogStatus)
  | [] => []
  | c0 :: rest =>
    if ((c0 :: rest).getLast (List.cons_ne_nil c0 rest)).1 ≤ en then
      (if start < c0.1 then (start, c0.2) :: c0 :: rest else c0 :: rest) ++
        [(en, ((c0 :: rest).getLast (List.cons_ne_nil c0 rest)).2)]
    else
      (if start < c0.1 then (start, c0.2) :: c0 :: rest else c0 :: rest)

/-- The clamped, seeded and terminal-closed sequence of a day. -/
def buildSeq (d : Nat) (entries : List LogEntry) : List (Int × LogStatus) :=
  seedAndClose (dayStart d) (dayEnd d) (clampEntries (dayStart d) (dayEnd d) entries)

/-- Consecutive pairs reduced to (status of the interval, whole minutes). -/
def simpleIntervals : List (Int × LogStatus) → List (LogStatus × Nat)
  | [] => []
  | [_] => []
  | p :: q :: rest => (p.2, ivMinutes p.1 q.1) :: simpleIntervals (q :: rest)

/-- Minutes accumulated into one status bucket (hos.py lines 66-72). -/
def statusMinutes (s : LogStatus) : List (LogStatus × Nat) → Nat
  | [] => 0
  | sm :: rest => (if sm.1 = s then sm.2 else 0) + statusMinutes s rest

/-- The function calculate_daily_totals of hos.py lines 35-79. -/
def calculate_daily_totals (entries : List LogEntry) (day : Nat) : DailyTotals :=
  match clampEntries (dayStart day) (dayEnd day) entries with
  | [] => DailyTotals.mk (round_hours 1440) 0 0 0
  | _ :: _ =>
    let ivs := simpleIntervals (buildSeq day entries)
    DailyTotals.mk (round_hours (statusMinutes LogStatus.OFF ivs))
      (round_hours (statusMinutes LogStatus.SLEEPER ivs))
      (round_hours (statusMinutes LogStatus.DRIVING ivs))
      (round_hours (statusMinutes LogStatus.ON_DUTY ivs))

/-- Stable sorting of entries by timestamp as done at hos.py line 99,
    written as a stable insertion sort. -/
def insertEntry (x : LogEntry) : List LogEntry → List LogEntry
  | [] => [x]
  | y :: ys => if y.timestamp < x.timestamp then y :: insertEntry x ys else x :: y :: ys

def sortEntries (l : List LogEntry) : List LogEntry := l.foldr insertEntry []

/-- Sorting of the day keys as done at hos.py line 190, written as a stable
    insertion sort. -/
def insertDay (x : Nat) : List Nat → List Nat
  | [] => [x]
  | y :: ys => if y < x then y :: insertDay x ys else x :: y :: ys

def sortDays (l : List Nat) : List Nat := l.foldr insertDay []

/-- The per-day rolling state of `detect_violations` (hos.py lines 120-125). -/
structure DayState where
  window_start : Option Int
  max_window_span_min : Int
  driving_since_reset_min : Nat
  max_driving_since_reset_min : Nat
  minutes_driving_since_break : Nat
  had_violation_30 : Bool
deriving DecidableEq, Repr

def initState : DayState :=
  { window_start := none, max_window_span_min := 0, driving_since_reset_min := 0,
    max_driving_since_reset_min := 0, minutes_driving_since_break := 0,
    had_violation_30 := false }

/-- The ten-hour OFF/SLEEPER reset (hos.py lines 132-136). -/
def stage1 (st : DayState) (s0 : LogStatus) (minutes : Nat) : DayState :=
  if (s0 = LogStatus.OFF ∨ s0 = LogStatus.SLEEPER) ∧ 600 ≤ minutes then
    { st with window_start := none, driving_since_reset_min := 0,
              minutes_driving_since_break := 0 }
  else st

/-- Start of on-duty window (hos.py lines 138-140). -/
def stage2 (st : DayState) (s0 : LogStatus) (t0 : Int) : DayState :=
  if (s0 = LogStatus.DRIVING ∨ s0 = LogStatus.ON_DUTY) ∧ st.window_start = none then
    { st with window_start := some t0 }
  else st

/-- On-duty window span accrual (hos.py lines 142-146); the local `span` of
    the source is written out twice. -/
def stage3 (st : DayState) (t1 : Int) : DayState :=
  match st.window_start with
  | none => st
  | some w =>
    if st.max_window_span_min < (t1 - w).fdiv 60000000 then
      { st with max_window_span_min := (t1 - w).fdiv 60000000 }
    else st

/-- Driving accrual and 30-minute break accrual (hos.py lines 148-158); the
    source updates `driving_since_reset_min` first and then compares the
    unchanged maximum against it, which is the comparison written here. -/
def stage4 (st : DayState) (s0 : LogStatus) (minutes : Nat) : DayState :=
  if s0 = LogStatus.DRIVING then
    if st.max_driving_since_reset_min < st.driving_since_reset_min + minutes then
      { st with driving_since_reset_min := st.driving_since_reset_min + minutes,
                minutes_driving_since_break := st.minutes_driving_since_break + minutes,
                max_driving_since_reset_min := st.driving_since_reset_min + minutes }
    else
      { st with driving_since_reset_min := st.driving_since_reset_min + minutes,
                minutes_driving_since_break := st.minutes_driving_since_break + minutes }
  else if (s0 = LogStatus.OFF ∨ s0 = LogStatus.SLEEPER) ∧ 30 ≤ minutes then
    { st with minutes_driving_since_break := 0 }
  else st

/-- Mid-day 30-minute break rule check (hos.py lines 160-162). -/
def stage5 (st : DayState) : DayState :=
  if 480 < st.minutes_driving_since_break ∧ st.had_violation_30 = false then
    { st with had_violation_30 := true }
  else st

/-- One iteration of the per-day loop (hos.py lines 127-162). -/
def stepDay (st : DayState) (iv : (Int × LogStatus) × Int) : DayState :=
  stage5 (stage4 (stage3 (stage2 (stage1 st iv.1.2 (ivMinutes iv.1.1 iv.2))
    iv.1.2 iv.1.1) iv.2) iv.1.2 (ivMinutes iv.1.1 iv.2))

/-- Consecutive pairs with the closing timestamp kept (for the window span). -/
def intervalsOf : List (Int × LogStatus) → List ((Int × LogStatus) × Int)
  | [] => []
  | [_] => []
  | p :: q :: rest => (p, q.1) :: intervalsOf (q :: rest)

/-- End-of-day check for the 30-minute break (hos.py lines 164-166). -/
def endOfDayBreak (st : DayState) : DayState :=
  if 480 ≤ st.minutes_driving_since_break ∧ st.had_violation_30 = false then
    { st with had_violation_30 := true }
  else st

def runDay (seq : List (Int × LogStatus)) : DayState :=
  endOfDayBreak ((intervalsOf seq).foldl stepDay initState)

/-- Per-day violation emission (hos.py lines 102-186): clamp, seed, close,
    skip an empty sequence, run the rolling state, emit at most one of
    "11H", "14H", "30M" in this order. -/
def dayViolations (d : Nat) (entries : List LogEntry) : List Violation :=
  match buildSeq d (sortEntries entries) with
  | [] => []
  | c0 :: rest =>
    let st := runDay (c0 :: rest)
    (if 660 < st.max_driving_since_reset_min then [Violation.mk "11H" d] else []) ++
      (if 840 < st.max_window_span_min then [Violation.mk "14H" d] else []) ++
        (if st.had_violation_30 = true then [Violation.mk "30M" d] else [])

/-- The per-day loop over the insertion-ordered mapping (hos.py line 98). -/
def per_day_violations : List (Nat × List LogEntry) → List Violation
  | [] => []
  | p :: rest => dayViolations p.1 p.2 ++ per_day_violations rest

/-- Python `dict` lookup, first binding wins (bindings are unique in a dict). -/
def lookupDay : List (Nat × List LogEntry) → Nat → Option (List LogEntry)
  | [], _ => none
  | p :: rest, d => if p.1 = d then some p.2 else lookupDay rest d

def keysOf (m : List (Nat × List LogEntry)) : List Nat := m.map Prod.fst

/-- Conversion of a daily hour total to whole on-duty minutes as at hos.py
    line 197, taken at its exact-decimal value; the float evaluation in the
    source can yield one minute less than this and never more. -/
def dayOnDutyMin (t : DailyTotals) : Nat := 3 * (t.driving_hours + t.on_duty_hours) / 5

/-- Per-day on-duty minutes with default 0, as built and read at hos.py
    lines 192-197 and 201. -/
def day_on_duty_min (m : List (Nat × List LogEntry)) (d : Nat) : Nat :=
  match lookupDay m d with
  | some es => dayOnDutyMin (calculate_daily_totals (sortEntries es) d)
  | none => 0

/-- The trailing-window sum `sum(day_to_on_duty_min.get(d, 0) for d in
    all_days_sorted[max(0, idx - 7) : idx + 1])` (hos.py lines 200-201). -/
def window_on_duty_min (m : List (Nat × List LogEntry)) (i : Nat) : Nat :=
  ((((sortDays (keysOf m)).take (i + 1)).drop (i - 7)).map (day_on_duty_min m)).sum

/-- The 70-hour/8-day loop (hos.py lines 199-204). -/
def seventy_eight_violations (m : List (Nat × List LogEntry)) : List Violation :=
  (List.range (sortDays (keysOf m)).length).filterMap (fun i =>
    if 4200 < window_on_duty_min m i then
      some (Violation.mk "70/8" ((sortDays (keysOf m)).getD i 0))
    else none)

/-- The function detect_violations of hos.py lines 82-206 with its default
    cycle argument. -/
def detect_violations (m : List (Nat × List LogEntry)) : List Violation :=
  per_day_violations m ++ (if m.isEmpty then [] else seventy_eight_violations m)

/-! Claim-side recharacterisations of the rolling counters, written from the
claim wording: driving minutes accumulated since the last OFF/SLEEPER
interval of at least 600 minutes, and driving minutes accumulated since the
last OFF/SLEEPER interval of at least 30 minutes (ON_DUTY neither adds nor
resets).  They are compared with the fold of `stepDay` by proof. -/

def driveCount (c : Nat) (sm : LogStatus × Nat) : Nat :=
  if (sm.1 = LogStatus.OFF ∨ sm.1 = LogStatus.SLEEPER) ∧ 600 ≤ sm.2 then 0
  else if sm.1 = LogStatus.DRIVING then c + sm.2
  else c

def drivingSinceReset (c : Nat) : List (LogStatus × Nat) → Nat
  | [] => c
  | sm :: rest => drivingSinceReset (driveCount c sm) rest

def driveStep (p : Nat × Nat) (sm : LogStatus × Nat) : Nat × Nat :=
  (driveCount p.1 sm,
    if sm.1 = LogStatus.DRIVING ∧ p.2 < driveCount p.1 sm then driveCount p.1 sm else p.2)

def drivePair (p : Nat × Nat) : List (LogStatus × Nat) → Nat × Nat
  | [] => p
  | sm :: rest => drivePair (driveStep p sm) rest

def breakStep (c : Nat) (sm : LogStatus × Nat) : Nat :=
  if sm.1 = LogStatus.DRIVING then c + sm.2
  else if (sm.1 = LogStatus.OFF ∨ sm.1 = LogStatus.SLEEPER) ∧ 30 ≤ sm.2 then 0
  else c

def breakCounter (c : Nat) : List (LogStatus × Nat) → Nat
  | [] => c
  | sm :: rest => breakCounter (breakStep c sm) rest

def breakPair (p : Nat × Bool) : List (LogStatus × Nat) → Nat × Bool
  | [] => p
  | sm :: rest => breakPair (breakStep p.1 sm, p.2 || decide (480 < breakStep p.1 sm)) rest

/-- Follows the words of claim C4: the trailing-window sum of
    `driving_hours + on_duty_hours` of the computed `DailyTotals`, in
    centihours (the claim compares it with 70 hours = 7000 centihours). -/
def claimWindowCent (m : List (Nat × List LogEntry)) (i : Nat) : Nat :=
  ((((sortDays (keysOf m)).take (i + 1)).drop (i - 7)).map (fun d =>
    match lookupDay m d with
    | some es =>
      (calculate_daily_totals (sortEntries es) d).driving_hours +
        (calculate_daily_totals (sortEntries es) d).on_duty_hours
    | none => 0)).sum

/-! Concrete inputs used by witnesses and counterexamples. -/

/-- A single entry at 00:00:00 of day `d`, status DRIVING. -/
def allDayDriving (d : Nat) : List LogEntry := [LogEntry.mk (dayStart d) LogStatus.DRIVING]

/-- Two 6-hour driving blocks separated by a 10-hour OFF interval:
    00:00 DRIVING, 06:00 OFF, 16:00 DRIVING, 22:00 OFF. -/
def exC2 : List LogEntry :=
  [LogEntry.mk 0 LogStatus.DRIVING, LogEntry.mk 21600000000 LogStatus.OFF,
    LogEntry.mk 57600000000 LogStatus.DRIVING, LogEntry.mk 79200000000 LogStatus.OFF]

def exC2M : List (Nat × List LogEntry) := [(0, exC2)]

/-- Nine consecutive hourly DRIVING entries starting at midnight. -/
def exC3 : List LogEntry :=
  (List.range 9).map (fun h => LogEntry.mk ((h : Int) * 3600000000) LogStatus.DRIVING)

def exC3M : List (Nat × List LogEntry) := [(0, exC3)]

/-- Four days whose `driving_hours` centihour totals are 2398, 2398, 2198, 7:
    the windowed hour sum is 70.01 h but the windowed whole-minute sum is
    4198 ≤ 4200. -/
def exC4M : List (Nat × List LogEntry) :=
  [(0, allDayDriving 0), (1, allDayDriving 1),
    (2, [LogEntry.mk (dayStart 2) LogStatus.DRIVING,
      LogEntry.mk (dayStart 2 + 79140000000) LogStatus.OFF]),
    (3, [LogEntry.mk (dayStart 3) LogStatus.DRIVING,
      LogEntry.mk (dayStart 3 + 240000000) LogStatus.OFF])]

/-- Five days of all-day driving: the 8-day window sum is 7190 minutes. -/
def exC4W : List (Nat × List LogEntry) :=
  [(0, allDayDriving 0), (1, allDayDriving 1), (2, allDayDriving 2),
    (3, allDayDriving 3), (4, allDayDriving 4)]

/-- An OFF entry at noon and a DRIVING entry at midnight, in sorted order. -/
def exC5a : List LogEntry :=
  [LogEntry.mk 0 LogStatus.OFF, LogEntry.mk 43200000000 LogStatus.DRIVING]

/-- The same two entries in the opposite order. -/
def exC5b : List LogEntry :=
  [LogEntry.mk 43200000000 LogStatus.DRIVING, LogEntry.mk 0 LogStatus.OFF]

/-- A single entry before the day window of day 0. -/
def exC7 : List LogEntry := [LogEntry.mk (-5) LogStatus.OFF]

/-- Seven all-day-driving days followed by a day mapped to zero entries. -/
def exC9M : List (Nat × List LogEntry) :=
  [(0, allDayDriving 0), (1, allDayDriving 1), (2, allDayDriving 2),
    (3, allDayDriving 3), (4, allDayDriving 4), (5, allDayDriving 5),
    (6, allDayDriving 6), (7, [])]

/-- Two all-day-driving days. -/
def exC10M : List (Nat × List LogEntry) := [(0, allDayDriving 0), (1, allDayDriving 1)]


/-- View of an interval as its status and its whole minutes. -/
def toSimple (iv : (Int × LogStatus) × Int) : LogStatus × Nat := (iv.1.2, ivMinutes iv.1.1 iv.2)

/-! Component lemmas for the five stages of `stepDay`. -/

lemma stage1_dsr (st : DayState) (s : LogStatus) (m : Nat) :
    (stage1 st s m).driving_since_reset_min =
      if (s = LogStatus.OFF ∨ s = LogStatus.SLEEPER) ∧ 600 ≤ m then 0
      else st.driving_since_reset_min := by
  unfold stage1; split <;> rfl

lemma stage1_break (st : DayState) (s : LogStatus) (m : Nat) :
    (stage1 st s m).minutes_driving_since_break =
      if (s = LogStatus.OFF ∨ s = LogStatus.SLEEPER) ∧ 600 ≤ m then 0
      else st.minutes_driving_since_break := by
  unfold stage1; split <;> rfl

lemma stage1_maxd (st : DayState) (s : LogStatus) (m : Nat) :
    (stage1 st s m).max_driving_since_reset_min = st.max_driving_since_reset_min := by
  unfold stage1; split <;> rfl

lemma stage1_had (st : DayState) (s : LogStatus) (m : Nat) :
    (stage1 st s m).had_violation_30 = st.had_violation_30 := by
  unfold stage1; split <;> rfl

lemma stage2_dsr (st : DayState) (s : LogStatus) (t : Int) :
    (stage2 st s t).driving_since_reset_min = st.driving_since_reset_min := by
  unfold stage2; split <;> rfl

lemma stage2_break (st : DayState) (s : LogStatus) (t : Int) :
    (stage2 st s t).minutes_driving_since_break = st.minutes_driving_since_break := by
  unfold stage2; split <;> rfl

lemma stage2_maxd (st : DayState) (s : LogStatus) (t : Int) :
    (stage2 st s t).max_driving_since_reset_min = st.max_driving_since_reset_min := by
  unfold stage2; split <;> rfl

lemma stage2_had (st : DayState) (s : LogStatus) (t : Int) :
    (stage2 st s t).had_violation_30 = st.had_violation_30 := by
  unfold stage2; split <;> rfl

lemma stage3_dsr (st : DayState) (t : Int) :
    (stage3 st t).driving_since_reset_min = st.driving_since_reset_min := by
  unfold stage3; split
  · rfl
  · split <;> rfl

lemma stage3_break (st : DayState) (t : Int) :
    (stage3 st t).minutes_driving_since_break = st.minutes_driving_since_break := by
  unfold stage3; split
  · rfl
  · split <;> rfl

lemma stage3_maxd (st : DayState) (t : Int) :
    (stage3 st t).max_driving_since_reset_min = st.max_driving_since_reset_min := by
  unfold stage3; split
  · rfl
  · split <;> rfl

lemma stage3_had (st : DayState) (t : Int) :
    (stage3 st t).had_violation_30 = st.had_violation_30 := by
  unfold stage3; split
  · rfl
  · split <;> rfl

lemma stage4_dsr (st : DayState) (s : LogStatus) (m : Nat) :
    (stage4 st s m).driving_since_reset_min =
      if s = LogStatus.DRIVING then st.driving_since_reset_min + m
      else st.driving_since_reset_min := by
  unfold stage4; split_ifs <;> rfl

lemma stage4_maxd (st : DayState) (s : LogStatus) (m : Nat) :
    (stage4 st s m).max_driving_since_reset_min =
      if s = LogStatus.DRIVING then
        (if st.max_driving_since_reset_min < st.driving_since_reset_min + m then
          st.driving_since_reset_min + m
        else st.max_driving_since_reset_min)
      else st.max_driving_since_reset_min := by
  unfold stage4; split_ifs <;> rfl

lemma stage4_break (st : DayState) (s : LogStatus) (m : Nat) :
    (stage4 st s m).minutes_driving_since_break =
      if s = LogStatus.DRIVING then st.minutes_driving_since_break + m
      else if (s = LogStatus.OFF ∨ s = LogStatus.SLEEPER) ∧ 30 ≤ m then 0
      else st.minutes_driving_since_break := by
  unfold stage4; split_ifs <;> rfl

lemma stage4_had (st : DayState) (s : LogStatus) (m : Nat) :
    (stage4 st s m).had_violation_30 = st.had_violation_30 := by
  unfold stage4; split_ifs <;> rfl

lemma stage5_dsr (st : DayState) :
    (stage5 st).driving_since_reset_min = st.driving_since_reset_min := by
  unfold stage5; split <;> rfl

lemma stage5_maxd (st : DayState) :
    (stage5 st).max_driving_since_reset_min = st.max_driving_since_reset_min := by
  unfold stage5; split <;> rfl

lemma stage5_break (st : DayState) :
    (stage5 st).minutes_driving_since_break = st.minutes_driving_since_break := by
  unfold stage5; split <;> rfl

lemma stage5_had (st : DayState) :
    (stage5 st).had_violation_30 =
      (st.had_violation_30 || decide (480 < st.minutes_driving_since_break)) := by
  unfold stage5; split_ifs with h
  · obtain ⟨h1, h2⟩ := h
    simp [h1, h2]
  · cases hb : st.had_violation_30
    · have h3 : ¬ 480 < st.minutes_driving_since_break := fun hc => h ⟨hc, hb⟩
      simp [hb, h3]
    · simp [hb]

lemma endOfDayBreak_maxd (st : DayState) :
    (endOfDayBreak st).max_driving_since_reset_min = st.max_driving_since_reset_min := by
  unfold endOfDayBreak; split <;> rfl

lemma endOfDayBreak_had (st : DayState) :
    (endOfDayBreak st).had_violation_30 =
      (st.had_violation_30 || decide (480 ≤ st.minutes_driving_since_break)) := by
  unfold endOfDayBreak; split_ifs with h
  · obtain ⟨h1, h2⟩ := h
    simp [h1, h2]
  · cases hb : st.had_violation_30
    · have h3 : ¬ 480 ≤ st.minutes_driving_since_break := fun hc => h ⟨hc, hb⟩
      simp [hb, h3]
    · simp [hb]

/-- One `stepDay` iteration acts on the driving-reset counter and its maximum
    exactly as `driveStep` does on the (status, minutes) view. -/
lemma stepDay_drive (st : DayState) (iv : (Int × LogStatus) × Int) :
    (stepDay st iv).driving_since_reset_min = (driveStep
        (st.driving_since_reset_min, st.max_driving_since_reset_min) (toSimple iv)).1 ∧
      (stepDay st iv).max_driving_since_reset_min = (driveStep
        (st.driving_since_reset_min, st.max_driving_since_reset_min) (toSimple iv)).2 := by
  obtain ⟨⟨t0, s⟩, t1⟩ := iv
  cases s <;>
    simp [stepDay, toSimple, driveStep, driveCount, stage5_dsr, stage5_maxd,
      stage4_dsr, stage4_maxd, stage3_dsr, stage3_maxd, stage2_dsr, stage2_maxd,
      stage1_dsr, stage1_maxd]

/-- One `stepDay` iteration acts on the break counter and the sticky 30-minute
    flag exactly as `breakStep` does on the (status, minutes) view. -/
lemma stepDay_break (st : DayState) (iv : (Int × LogStatus) × Int) :
    (stepDay st iv).minutes_driving_since_break =
        breakStep st.minutes_driving_since_break (toSimple iv) ∧
      (stepDay st iv).had_violation_30 = (st.had_violation_30 ||
        decide (480 < breakStep st.minutes_driving_since_break (toSimple iv))) := by
  obtain ⟨⟨t0, s⟩, t1⟩ := iv
  cases s
  case OFF =>
    by_cases h600 : 600 ≤ ivMinutes t0 t1
    · have h30 : 30 ≤ ivMinutes t0 t1 := by omega
      simp [stepDay, toSimple, breakStep, stage5_break, stage5_had, stage4_break,
        stage4_had, stage3_break, stage3_had, stage2_break, stage2_had,
        stage1_break, stage1_had, h600, h30]
    · simp [stepDay, toSimple, breakStep, stage5_break, stage5_had, stage4_break,
        stage4_had, stage3_break, stage3_had, stage2_break, stage2_had,
        stage1_break, stage1_had, h600]
  case SLEEPER =>
    by_cases h600 : 600 ≤ ivMinutes t0 t1
    · have h30 : 30 ≤ ivMinutes t0 t1 := by omega
      simp [stepDay, toSimple, breakStep, stage5_break, stage5_had, stage4_break,
        stage4_had, stage3_break, stage3_had, stage2_break, stage2_had,
        stage1_break, stage1_had, h600, h30]
    · simp [stepDay, toSimple, breakStep, stage5_break, stage5_had, stage4_break,
        stage4_had, stage3_break, stage3_had, stage2_break, stage2_had,
        stage1_break, stage1_had, h600]
  case DRIVING =>
    simp [stepDay, toSimple, breakStep, stage5_break, stage5_had, stage4_break,
      stage4_had, stage3_break, stage3_had, stage2_break, stage2_had,
      stage1_break, stage1_had]
  case ON_DUTY =>
    simp [stepDay, toSimple, breakStep, stage5_break, stage5_had, stage4_break,
      stage4_had, stage3_break, stage3_had, stage2_break, stage2_had,
      stage1_break, stage1_had]

/-- The fold of `stepDay` projects onto `drivePair` and `breakPair`. -/
lemma foldl_stepDay_proj (ivs : List ((Int × LogStatus) × Int)) : ∀ st : DayState,
    (((ivs.foldl stepDay st).driving_since_reset_min,
        (ivs.foldl stepDay st).max_driving_since_reset_min) =
      drivePair (st.driving_since_reset_min, st.max_driving_since_reset_min)
        (ivs.map toSimple)) ∧
    (((ivs.foldl stepDay st).minutes_driving_since_break,
        (ivs.foldl stepDay st).had_violation_30) =
      breakPair (st.minutes_driving_since_break, st.had_violation_30)
        (ivs.map toSimple)) := by
  induction ivs with
  | nil => intro st; exact ⟨rfl, rfl⟩
  | cons iv rest ih =>
    intro st
    have hd := stepDay_drive st iv
    have hb := stepDay_break st iv
    constructor
    · have := (ih (stepDay st iv)).1
      simpa [List.foldl_cons, List.map_cons, drivePair, hd.1, hd.2] using this
    · have := (ih (stepDay st iv)).2
      simpa [List.foldl_cons, List.map_cons, breakPair, hb.1, hb.2] using this

lemma intervalsOf_map_toSimple (seq : List (Int × LogStatus)) :
    (intervalsOf seq).map toSimple = simpleIntervals seq := by
  induction seq with
  | nil => rfl
  | cons p rest ih =>
    cases rest with
    | nil => rfl
    | cons q rest2 =>
      have ih2 : (intervalsOf (q :: rest2)).map toSimple = simpleIntervals (q :: rest2) := ih
      simp [intervalsOf, simpleIntervals, toSimple, ih2]

lemma foldl_stepDay_init_drive (seq : List (Int × LogStatus)) :
    ((intervalsOf seq).foldl stepDay initState).max_driving_since_reset_min =
      (drivePair (0, 0) (simpleIntervals seq)).2 := by
  have h := (foldl_stepDay_proj (intervalsOf seq) initState).1
  rw [intervalsOf_map_toSimple] at h
  exact congrArg Prod.snd h

lemma foldl_stepDay_init_break (seq : List (Int × LogStatus)) :
    ((intervalsOf seq).foldl stepDay initState).minutes_driving_since_break =
        (breakPair (0, false) (simpleIntervals seq)).1 ∧
      ((intervalsOf seq).foldl stepDay initState).had_violation_30 =
        (breakPair (0, false) (simpleIntervals seq)).2 := by
  have h := (foldl_stepDay_proj (intervalsOf seq) initState).2
  rw [intervalsOf_map_toSimple] at h
  exact ⟨congrArg Prod.fst h, congrArg Prod.snd h⟩

lemma runDay_maxd (seq : List (Int × LogStatus)) :
    (runDay seq).max_driving_since_reset_min = (drivePair (0, 0) (simpleIntervals seq)).2 := by
  unfold runDay
  rw [endOfDayBreak_maxd]
  exact foldl_stepDay_init_drive seq

lemma runDay_had (seq : List (Int × LogStatus)) :
    (runDay seq).had_violation_30 =
      ((breakPair (0, false) (simpleIntervals seq)).2 ||
        decide (480 ≤ (breakPair (0, false) (simpleIntervals seq)).1)) := by
  unfold runDay
  rw [endOfDayBreak_had]
  rw [(foldl_stepDay_init_break seq).1, (foldl_stepDay_init_break seq).2]

lemma drivePair_fst (l : List (LogStatus × Nat)) : ∀ p : Nat × Nat,
    (drivePair p l).1 = drivingSinceReset p.1 l := by
  induction l with
  | nil => intro p; rfl
  | cons sm rest ih =>
    intro p
    have h : drivingSinceReset p.1 (sm :: rest) = drivingSinceReset (driveCount p.1 sm) rest := rfl
    rw [h]
    exact ih (driveStep p sm)

lemma breakPair_fst (l : List (LogStatus × Nat)) : ∀ p : Nat × Bool,
    (breakPair p l).1 = breakCounter p.1 l := by
  induction l with
  | nil => intro p; rfl
  | cons sm rest ih =>
    intro p
    have h : breakCounter p.1 (sm :: rest) = breakCounter (breakStep p.1 sm) rest := rfl
    rw [h]
    exact ih (breakStep p.1 sm, p.2 || decide (480 < breakStep p.1 sm))

lemma driveStep_snd (p : Nat × Nat) (sm : LogStatus × Nat) :
    (driveStep p sm).2 =
      if sm.1 = LogStatus.DRIVING ∧ p.2 < driveCount p.1 sm then driveCount p.1 sm else p.2 := rfl

lemma driveCount_le_of_not_driving (c : Nat) (sm : LogStatus × Nat)
    (h : ¬ sm.1 = LogStatus.DRIVING) : driveCount c sm ≤ c := by
  unfold driveCount
  split_ifs with h1
  · omega
  · exact Nat.le_refl c

lemma driveStep_snd_ge (p : Nat × Nat) (sm : LogStatus × Nat) : p.2 ≤ (driveStep p sm).2 := by
  rw [driveStep_snd]
  split
  · next h => omega
  · exact Nat.le_refl p.2

/-- The peak tracked by the fold exceeds 660 exactly when the running counter
    exceeds 660 after some prefix of the pass. -/
lemma drive_iff (l : List (LogStatus × Nat)) : ∀ c M : Nat, c ≤ M →
    (660 < (drivePair (c, M) l).2 ↔
      660 < M ∨ ∃ k, 660 < drivingSinceReset c (l.take k)) := by
  induction l with
  | nil =>
    intro c M hcM
    constructor
    · intro h
      exact Or.inl h
    · rintro (h | ⟨k, hk⟩)
      · exact h
      · simp only [List.take_nil, drivingSinceReset] at hk
        show 660 < M
        omega
  | cons sm rest ih =>
    intro c M hcM
    have hc1M1 : driveCount c sm ≤ (driveStep (c, M) sm).2 := by
      by_cases hD : sm.1 = LogStatus.DRIVING
      · rw [driveStep_snd]
        split
        · exact Nat.le_refl _
        · next hds =>
          have : ¬ (M : Nat) < driveCount c sm := fun hlt => hds ⟨hD, hlt⟩
          omega
      · have h1 : driveCount c sm ≤ c := driveCount_le_of_not_driving c sm hD
        have h2 : (M : Nat) ≤ (driveStep (c, M) sm).2 := driveStep_snd_ge (c, M) sm
        omega
    have hstep : drivePair (c, M) (sm :: rest) =
        drivePair (driveCount c sm, (driveStep (c, M) sm).2) rest := by
      show drivePair (driveStep (c, M) sm) rest = _
      rw [show driveStep (c, M) sm = (driveCount c sm, (driveStep (c, M) sm).2) from rfl]
    rw [hstep, ih (driveCount c sm) ((driveStep (c, M) sm).2) hc1M1]
    constructor
    · rintro (h | ⟨j, hj⟩)
      · rw [driveStep_snd] at h
        by_cases hds : sm.1 = LogStatus.DRIVING ∧ (M : Nat) < driveCount c sm
        · rw [if_pos hds] at h
          refine Or.inr ⟨1, ?_⟩
          simpa [drivingSinceReset] using h
        · rw [if_neg hds] at h
          exact Or.inl h
      · refine Or.inr ⟨j + 1, ?_⟩
        simpa [List.take_succ_cons, drivingSinceReset] using hj
    · rintro (h | ⟨k, hk⟩)
      · left
        rw [driveStep_snd]
        split
        · next hds => omega
        · exact h
      · cases k with
        | zero =>
          left
          simp only [List.take_zero, drivingSinceReset] at hk
          have := driveStep_snd_ge (c, M) sm
          omega
        | succ j =>
          refine Or.inr ⟨j, ?_⟩
          simpa [List.take_succ_cons, drivingSinceReset] using hk

/-- The sticky flag of the fold is set exactly when the break counter exceeds
    480 after some prefix of the pass. -/
lemma break_iff (l : List (LogStatus × Nat)) : ∀ (c : Nat) (h : Bool), (480 < c → h = true) →
    ((breakPair (c, h) l).2 = true ↔
      h = true ∨ ∃ k, 480 < breakCounter c (l.take k)) := by
  induction l with
  | nil =>
    intro c h hinv
    constructor
    · intro hh
      exact Or.inl hh
    · rintro (hh | ⟨k, hk⟩)
      · exact hh
      · simp only [List.take_nil, breakCounter] at hk
        exact hinv hk
  | cons sm rest ih =>
    intro c h hinv
    have hstep : breakPair (c, h) (sm :: rest) =
        breakPair (breakStep c sm, h || decide (480 < breakStep c sm)) rest := rfl
    have hinv2 : 480 < breakStep c sm → (h || decide (480 < breakStep c sm)) = true := by
      intro hc
      simp [hc]
    rw [hstep, ih (breakStep c sm) (h || decide (480 < breakStep c sm)) hinv2]
    constructor
    · rintro (hh | ⟨j, hj⟩)
      · rcases Bool.or_eq_true_iff.mp hh with hh1 | hh1
        · exact Or.inl hh1
        · refine Or.inr ⟨1, ?_⟩
          simpa [breakCounter] using of_decide_eq_true hh1
      · refine Or.inr ⟨j + 1, ?_⟩
        simpa [List.take_succ_cons, breakCounter] using hj
    · rintro (hh | ⟨k, hk⟩)
      · left
        simp [hh]
      · cases k with
        | zero =>
          left
          simp only [List.take_zero, breakCounter] at hk
          simp [hinv hk]
        | succ j =>
          refine Or.inr ⟨j, ?_⟩
          simpa [List.take_succ_cons, breakCounter] using hk

lemma mem_ite_singleton {α : Type} {p : Prop} [Decidable p] (a v : α) :
    (a ∈ if p then [v] else []) ↔ p ∧ a = v := by
  by_cases hp : p
  · simp [hp]
  · simp [hp]

/-- Every per-day violation carries that day and one of the three per-day codes. -/
lemma dayV_mem_props (d : Nat) (es : List LogEntry) (v : Violation)
    (hv : v ∈ dayViolations d es) :
    v.day = d ∧ (v.code = "11H" ∨ v.code = "14H" ∨ v.code = "30M") := by
  unfold dayViolations at hv
  rcases hbs : buildSeq d (sortEntries es) with _ | ⟨c0, rest⟩
  · rw [hbs] at hv
    simp at hv
  · rw [hbs] at hv
    simp only [List.mem_append, mem_ite_singleton] at hv
    rcases hv with (⟨_, hv⟩ | ⟨_, hv⟩) | ⟨_, hv⟩ <;> subst hv <;> simp

lemma mem_dayV_11 (d : Nat) (es : List LogEntry) :
    Violation.mk "11H" d ∈ dayViolations d es ↔
      ∃ k, 660 < drivingSinceReset 0 ((simpleIntervals (buildSeq d (sortEntries es))).take k) := by
  unfold dayViolations
  rcases hbs : buildSeq d (sortEntries es) with _ | ⟨c0, rest⟩
  · simp [simpleIntervals, drivingSinceReset]
  · have hne1 : Violation.mk "11H" d ≠ Violation.mk "14H" d := fun h =>
      absurd (congrArg Violation.code h) (show ("11H" : String) ≠ "14H" from by decide)
    have hne2 : Violation.mk "11H" d ≠ Violation.mk "30M" d := fun h =>
      absurd (congrArg Violation.code h) (show ("11H" : String) ≠ "30M" from by decide)
    have hcond : 660 < (runDay (c0 :: rest)).max_driving_since_reset_min ↔
        ∃ k, 660 < drivingSinceReset 0 ((simpleIntervals (c0 :: rest)).take k) := by
      rw [runDay_maxd]
      rw [drive_iff (simpleIntervals (c0 :: rest)) 0 0 (Nat.le_refl 0)]
      constructor
      · rintro (h | h)
        · omega
        · exact h
      · intro h
        exact Or.inr h
    simp only [List.mem_append, mem_ite_singleton]
    constructor
    · rintro ((⟨hc, _⟩ | ⟨_, hv⟩) | ⟨_, hv⟩)
      · exact hcond.mp hc
      · exact absurd hv hne1
      · exact absurd hv hne2
    · intro h
      exact Or.inl (Or.inl ⟨hcond.mpr h, trivial⟩)

lemma mem_dayV_30 (d : Nat) (es : List LogEntry) :
    Violation.mk "30M" d ∈ dayViolations d es ↔
      ((∃ k, 480 < breakCounter 0 ((simpleIntervals (buildSeq d (sortEntries es))).take k)) ∨
        480 ≤ breakCounter 0 (simpleIntervals (buildSeq d (sortEntries es)))) := by
  unfold dayViolations
  rcases hbs : buildSeq d (sortEntries es) with _ | ⟨c0, rest⟩
  · simp [simpleIntervals, breakCounter]
  · have hne1 : Violation.mk "30M" d ≠ Violation.mk "11H" d := fun h =>
      absurd (congrArg Violation.code h) (show ("30M" : String) ≠ "11H" from by decide)
    have hne2 : Violation.mk "30M" d ≠ Violation.mk "14H" d := fun h =>
      absurd (congrArg Violation.code h) (show ("30M" : String) ≠ "14H" from by decide)
    have hcond : (runDay (c0 :: rest)).had_violation_30 = true ↔
        ((∃ k, 480 < breakCounter 0 ((simpleIntervals (c0 :: rest)).take k)) ∨
          480 ≤ breakCounter 0 (simpleIntervals (c0 :: rest))) := by
      rw [runDay_had]
      rw [Bool.or_eq_true_iff]
      rw [break_iff (simpleIntervals (c0 :: rest)) 0 false (by omega)]
      rw [breakPair_fst]
      rw [decide_eq_true_iff]
      constructor
      · rintro ((h | h) | h)
        · exact absurd h (by simp)
        · exact Or.inl h
        · exact Or.inr h
      · rintro (h | h)
        · exact Or.inl (Or.inr h)
        · exact Or.inr h
    simp only [List.mem_append, mem_ite_singleton]
    constructor
    · rintro ((⟨_, hv⟩ | ⟨_, hv⟩) | ⟨hc, _⟩)
      · exact absurd hv hne1
      · exact absurd hv hne2
      · exact hcond.mp hc
    · intro h
      exact Or.inr ⟨hcond.mpr h, trivial⟩

lemma perDay_mem_day (m : List (Nat × List LogEntry)) (v : Violation)
    (hv : v ∈ per_day_violations m) : v.day ∈ keysOf m := by
  induction m with
  | nil => exact absurd hv (List.not_mem_nil v)
  | cons p rest ih =>
    rcases List.mem_append.mp hv with h | h
    · have := (dayV_mem_props p.1 p.2 v h).1
      rw [this]
      exact List.mem_map.mpr ⟨p, List.mem_cons_self p rest, rfl⟩
    · exact List.mem_cons_of_mem _ (ih h)

lemma perDay_mem_codes (m : List (Nat × List LogEntry)) (v : Violation)
    (hv : v ∈ per_day_violations m) :
    v.code = "11H" ∨ v.code = "14H" ∨ v.code = "30M" := by
  induction m with
  | nil => exact absurd hv (List.not_mem_nil v)
  | cons p rest ih =>
    rcases List.mem_append.mp hv with h | h
    · exact (dayV_mem_props p.1 p.2 v h).2
    · exact ih h

/-- With unique keys, a violation for day `d` comes from the block of day `d`. -/
lemma perDay_mem_iff (m : List (Nat × List LogEntry)) (d : Nat) (es : List LogEntry)
    (hnd : (keysOf m).Nodup) (hmem : (d, es) ∈ m) (v : Violation) (hd : v.day = d) :
    (v ∈ per_day_violations m ↔ v ∈ dayViolations d es) := by
  induction m with
  | nil => exact absurd hmem (List.not_mem_nil _)
  | cons p rest ih =>
    obtain ⟨hd0, hndr⟩ := List.nodup_cons.mp hnd
    rcases List.mem_cons.mp hmem with heq | hm2
    · have hd0d : p.1 = d := by rw [← heq]
      have hes : p.2 = es := by rw [← heq]
      constructor
      · intro hv
        rcases List.mem_append.mp hv with h | h
        · rw [← hd0d, ← hes]
          exact h
        · have := perDay_mem_day rest v h
          rw [hd, ← hd0d] at this
          exact absurd this hd0
      · intro hv
        apply List.mem_append.mpr
        left
        rw [hd0d, hes]
        exact hv
    · have hdin : d ∈ keysOf rest := List.mem_map.mpr ⟨(d, es), hm2, rfl⟩
      have hpd : p.1 ≠ d := fun h => hd0 (h ▸ hdin)
      constructor
      · intro hv
        rcases List.mem_append.mp hv with h | h
        · have := (dayV_mem_props p.1 p.2 v h).1
          rw [hd] at this
          exact absurd this.symm hpd
        · exact (ih hndr hm2).mp h
      · intro hv
        exact List.mem_append.mpr (Or.inr ((ih hndr hm2).mpr hv))

lemma weekly_mem (m : List (Nat × List LogEntry)) (v : Violation) :
    v ∈ seventy_eight_violations m ↔
      ∃ i, i < (sortDays (keysOf m)).length ∧ 4200 < window_on_duty_min m i ∧
        v = Violation.mk "70/8" ((sortDays (keysOf m)).getD i 0) := by
  unfold seventy_eight_violations
  rw [List.mem_filterMap]
  constructor
  · rintro ⟨i, hi, hfi⟩
    rw [List.mem_range] at hi
    by_cases hc : 4200 < window_on_duty_min m i
    · rw [if_pos hc] at hfi
      exact ⟨i, hi, hc, (Option.some.inj hfi).symm⟩
    · rw [if_neg hc] at hfi
      exact absurd hfi (by simp)
  · rintro ⟨i, hi, hc, hv⟩
    exact ⟨i, List.mem_range.mpr hi, by rw [if_pos hc, hv]⟩

lemma weekly_code (m : List (Nat × List LogEntry)) (v : Violation)
    (hv : v ∈ seventy_eight_violations m) : v.code = "70/8" := by
  obtain ⟨i, _, _, hveq⟩ := (weekly_mem m v).mp hv
  rw [hveq]

lemma detect_eq_of_ne_nil (m : List (Nat × List LogEntry)) (hm : m ≠ []) :
    detect_violations m = per_day_violations m ++ seventy_eight_violations m := by
  unfold detect_violations
  have hie : m.isEmpty = false := by
    cases m
    · exact absurd rfl hm
    · rfl
  rw [hie]
  simp

/-- Membership of a violation for day `d` in the full result decomposes into
    the block of that day and the weekly block. -/
lemma mem_detect_iff (m : List (Nat × List LogEntry)) (d : Nat) (es : List LogEntry)
    (c : String) (hnd : (keysOf m).Nodup) (hmem : (d, es) ∈ m) :
    (Violation.mk c d ∈ detect_violations m ↔
      (Violation.mk c d ∈ dayViolations d es ∨
        Violation.mk c d ∈ seventy_eight_violations m)) := by
  have hm : m ≠ [] := by
    intro h
    rw [h] at hmem
    exact absurd hmem (List.not_mem_nil _)
  rw [detect_eq_of_ne_nil m hm, List.mem_append]
  constructor
  · rintro (h | h)
    · exact Or.inl ((perDay_mem_iff m d es hnd hmem _ rfl).mp h)
    · exact Or.inr h
  · rintro (h | h)
    · exact Or.inl ((perDay_mem_iff m d es hnd hmem _ rfl).mpr h)
    · exact Or.inr h

/-- C2: `detect_violations` emits an "11H" violation for a day if and only if
the maximum driving minutes accumulated since the last OFF/SLEEPER interval of
at least 600 minutes (over the clamped, seeded and terminal-closed
interval sequence of the day) exceeds 660 — equivalently, the running
driving-since-reset counter exceeds 660 after some prefix of the pass; in
particular, two separate 6-hour driving blocks separated by a 10-hour OFF
interval within one day produce no "11H" violation even though total driving
is 12 hours (driving_hours = 12.00). -/
theorem claim_C2_eleven_hour (m : List (Nat × List LogEntry)) (d : Nat)
    (es : List LogEntry) (hnd : (keysOf m).Nodup) (hmem : (d, es) ∈ m) :
    (Violation.mk "11H" d ∈ detect_violations m ↔
      ∃ k, 660 < drivingSinceReset 0
        ((simpleIntervals (buildSeq d (sortEntries es))).take k)) ∧
    Violation.mk "11H" 0 ∉ detect_violations exC2M ∧
    (calculate_daily_totals (sortEntries exC2) 0).driving_hours = 1200 := by
  refine ⟨?_, by decide, by decide⟩
  rw [mem_detect_iff m d es "11H" hnd hmem]
  constructor
  · rintro (h | h)
    · exact (mem_dayV_11 d es).mp h
    · have h2 : ("11H" : String) = "70/8" := weekly_code m _ h
      exact absurd h2 (by decide)
  · intro h
    exact Or.inl ((mem_dayV_11 d es).mpr h)

theorem claim_C2_eleven_hour_witness :
    ((keysOf exC2M).Nodup ∧ (0, exC2) ∈ exC2M) ∧
      ((Violation.mk "11H" 0 ∈ detect_violations exC2M ↔
        ∃ k, 660 < drivingSinceReset 0
          ((simpleIntervals (buildSeq 0 (sortEntries exC2))).take k)) ∧
      Violation.mk "11H" 0 ∉ detect_violations exC2M ∧
      (calculate_daily_totals (sortEntries exC2) 0).driving_hours = 1200) :=
  ⟨⟨by decide, by decide⟩,
    claim_C2_eleven_hour exC2M 0 exC2 (by decide) (by decide)⟩

/-- C3: `detect_violations` emits a "30M" violation for a day if and only if,
during the single pass over the intervals of the day, the driving minutes
accumulated since the last OFF/SLEEPER interval of at least 30 minutes exceed
480 after some interval (a sticky condition, expressed here as some prefix of
the pass exceeding 480), or reach at least 480 at end of day; ON_DUTY
intervals neither add to nor reset this counter. -/
theorem claim_C3_break_rule (m : List (Nat × List LogEntry)) (d : Nat)
    (es : List LogEntry) (hnd : (keysOf m).Nodup) (hmem : (d, es) ∈ m) :
    (Violation.mk "30M" d ∈ detect_violations m ↔
      ((∃ k, 480 < breakCounter 0
          ((simpleIntervals (buildSeq d (sortEntries es))).take k)) ∨
        480 ≤ breakCounter 0 (simpleIntervals (buildSeq d (sortEntries es))))) ∧
    (∀ (c : Nat) (l : List (LogStatus × Nat)) (mins : Nat),
      breakCounter c (l ++ [(LogStatus.ON_DUTY, mins)]) = breakCounter c l) := by
  constructor
  · rw [mem_detect_iff m d es "30M" hnd hmem]
    constructor
    · rintro (h | h)
      · exact (mem_dayV_30 d es).mp h
      · have h2 : ("30M" : String) = "70/8" := weekly_code m _ h
        exact absurd h2 (by decide)
    · intro h
      exact Or.inl ((mem_dayV_30 d es).mpr h)
  · intro c l mins
    induction l generalizing c with
    | nil => rfl
    | cons sm rest ih =>
      have h1 : breakCounter c ((sm :: rest) ++ [(LogStatus.ON_DUTY, mins)]) =
          breakCounter (breakStep c sm) (rest ++ [(LogStatus.ON_DUTY, mins)]) := rfl
      rw [h1, ih (breakStep c sm)]
      rfl

theorem claim_C3_break_rule_witness :
    ((keysOf exC3M).Nodup ∧ (0, exC3) ∈ exC3M ∧
      Violation.mk "30M" 0 ∈ detect_violations exC3M) ∧
      ((Violation.mk "30M" 0 ∈ detect_violations exC3M ↔
        ((∃ k, 480 < breakCounter 0
            ((simpleIntervals (buildSeq 0 (sortEntries exC3))).take k)) ∨
          480 ≤ breakCounter 0 (simpleIntervals (buildSeq 0 (sortEntries exC3))))) ∧
      (∀ (c : Nat) (l : List (LogStatus × Nat)) (mins : Nat),
        breakCounter c (l ++ [(LogStatus.ON_DUTY, mins)]) = breakCounter c l)) :=
  ⟨⟨by decide, by decide, by decide⟩,
    claim_C3_break_rule exC3M 0 exC3 (by decide) (by decide)⟩

/-- C1: the claim states that the four totals always sum to 24.00 hours within
a tolerance of 0.01 (one centihour).  The code violates it: a day fully
covered by a single DRIVING entry at 00:00:00 totals 1439 whole minutes
(the window closes at 23:59:59.999999 and each interval is floored), giving
23.98 hours — more than 0.01 away from 24.00. -/
theorem claim_C1_sum_evaluation :
    ((calculate_daily_totals (allDayDriving 0) 0).off_hours +
        (calculate_daily_totals (allDayDriving 0) 0).sleeper_hours +
        (calculate_daily_totals (allDayDriving 0) 0).driving_hours +
        (calculate_daily_totals (allDayDriving 0) 0).on_duty_hours = 2398) ∧
      2398 + 1 < 2400 := by decide

/-- C6: the claim states that a single in-window entry at 00:00:00 with status
DRIVING yields driving_hours = 24.0.  The code returns 23.98 (2398
centihours): the terminal entry is at 23:59:59.999999 and the single interval
floors to 1439 minutes. -/
theorem claim_C6_single_status_evaluation :
    calculate_daily_totals (allDayDriving 5) 5 = DailyTotals.mk 0 0 2398 0 ∧
      (calculate_daily_totals (allDayDriving 5) 5).driving_hours ≠ 2400 := by decide

/-- C7: an entry sequence with no entries inside the day window yields
OFF = 24.0 and all other buckets 0.0, with no partial computation. -/
theorem claim_C7_empty_window (entries : List LogEntry) (d : Nat)
    (h : ∀ e ∈ entries, e.timestamp < dayStart d ∨ dayEnd d < e.timestamp) :
    calculate_daily_totals entries d = DailyTotals.mk 2400 0 0 0 := by
  have hse : dayStart d ≤ dayEnd d := by
    unfold dayEnd
    omega
  have hcl : clampEntries (dayStart d) (dayEnd d) entries = [] := by
    induction entries with
    | nil => rfl
    | cons e rest ih =>
      rcases h e (List.mem_cons_self e rest) with h1 | h1
      · unfold clampEntries
        rw [if_pos h1]
        exact ih (fun x hx => h x (List.mem_cons_of_mem e hx))
      · unfold clampEntries
        rw [if_neg (by omega), if_pos h1]
  unfold calculate_daily_totals
  rw [hcl]
  rfl

theorem claim_C7_empty_window_witness :
    (∀ e ∈ exC7, e.timestamp < dayStart 0 ∨ dayEnd 0 < e.timestamp) ∧
      calculate_daily_totals exC7 0 = DailyTotals.mk 2400 0 0 0 :=
  ⟨by decide, claim_C7_empty_window exC7 0 (by decide)⟩

/-! Sorting lemmas: `sortEntries` is a permutation sorted by timestamp, and on
entry lists with pairwise-distinct timestamps it is determined by the multiset
of entries. -/

def entLe (a b : LogEntry) : Prop := a.timestamp ≤ b.timestamp

def entLt (a b : LogEntry) : Prop := a.timestamp < b.timestamp

instance : IsAntisymm LogEntry entLt :=
  ⟨fun _ _ h1 h2 => absurd (lt_trans h1 h2) (lt_irrefl _)⟩

lemma insertEntry_perm (x : LogEntry) (l : List LogEntry) :
    (insertEntry x l).Perm (x :: l) := by
  induction l with
  | nil => exact List.Perm.refl _
  | cons y ys ih =>
    unfold insertEntry
    split_ifs with h
    · exact (ih.cons y).trans (List.Perm.swap x y ys)
    · exact List.Perm.refl _

lemma sortEntries_perm (l : List LogEntry) : (sortEntries l).Perm l := by
  induction l with
  | nil => exact List.Perm.refl _
  | cons a rest ih =>
    have h : sortEntries (a :: rest) = insertEntry a (sortEntries rest) := rfl
    rw [h]
    exact (insertEntry_perm a (sortEntries rest)).trans (ih.cons a)

lemma insertEntry_sorted (x : LogEntry) (l : List LogEntry) (h : l.Pairwise entLe) :
    (insertEntry x l).Pairwise entLe := by
  induction l with
  | nil => simp [insertEntry, entLe]
  | cons y ys ih =>
    rw [List.pairwise_cons] at h
    obtain ⟨hy, hys⟩ := h
    unfold insertEntry
    split_ifs with hlt
    · rw [List.pairwise_cons]
      constructor
      · intro z hz
        have hz2 := (insertEntry_perm x ys).mem_iff.mp hz
        rcases List.mem_cons.mp hz2 with rfl | hz3
        · exact le_of_lt hlt
        · exact hy z hz3
      · exact ih hys
    · rw [List.pairwise_cons]
      constructor
      · intro z hz
        rcases List.mem_cons.mp hz with rfl | hz2
        · exact not_lt.mp hlt
        · exact le_trans (not_lt.mp hlt) (hy z hz2)
      · exact List.pairwise_cons.mpr ⟨hy, hys⟩

lemma sortEntries_sorted (l : List LogEntry) : (sortEntries l).Pairwise entLe := by
  induction l with
  | nil => exact List.Pairwise.nil
  | cons a rest ih => exact insertEntry_sorted a (sortEntries rest) ih

lemma pairwise_lt_of_le_nodup (l : List LogEntry) (hle : l.Pairwise entLe)
    (hn : (l.map LogEntry.timestamp).Nodup) : l.Pairwise entLt := by
  have hne : l.Pairwise (fun a b : LogEntry => a.timestamp ≠ b.timestamp) :=
    List.pairwise_map.mp hn
  exact (hle.and hne).imp (fun h => lt_of_le_of_ne h.1 h.2)

lemma sortEntries_eq_of_perm (l1 l2 : List LogEntry) (hp : l1.Perm l2)
    (hn : (l1.map LogEntry.timestamp).Nodup) : sortEntries l1 = sortEntries l2 := by
  have hperm : (sortEntries l1).Perm (sortEntries l2) :=
    (sortEntries_perm l1).trans (hp.trans (sortEntries_perm l2).symm)
  have hn1 : ((sortEntries l1).map LogEntry.timestamp).Nodup :=
    (((sortEntries_perm l1).map LogEntry.timestamp).nodup_iff).mpr hn
  have hn2 : ((sortEntries l2).map LogEntry.timestamp).Nodup :=
    (((sortEntries_perm l2).map LogEntry.timestamp).nodup_iff).mpr
      (((hp.map LogEntry.timestamp).nodup_iff).mp hn)
  exact List.eq_of_perm_of_sorted hperm
    (pairwise_lt_of_le_nodup _ (sortEntries_sorted l1) hn1)
    (pairwise_lt_of_le_nodup _ (sortEntries_sorted l2) hn2)

/-- C5 counterexample: `calculate_daily_totals` does not sort its input; two
permutations of the same two entries yield different totals. -/
theorem claim_C5_counterexample :
    exC5a.Perm exC5b ∧ calculate_daily_totals exC5a 0 ≠ calculate_daily_totals exC5b 0 := by
  constructor
  · exact List.Perm.swap (LogEntry.mk 43200000000 LogStatus.DRIVING)
      (LogEntry.mk 0 LogStatus.OFF) []
  · decide

/-- C5 amended: `calculate_daily_totals` does not itself sort; its caller
`detect_violations` sorts the entries of each day by timestamp first.  For any two
permutations of the same multiset of entries whose timestamps are pairwise
distinct, sorting and then computing daily totals yields identical results. -/
theorem claim_C5_sorted_determinism (l1 l2 : List LogEntry) (d : Nat)
    (hp : l1.Perm l2) (hn : (l1.map LogEntry.timestamp).Nodup) :
    calculate_daily_totals (sortEntries l1) d = calculate_daily_totals (sortEntries l2) d := by
  rw [sortEntries_eq_of_perm l1 l2 hp hn]

theorem claim_C5_sorted_determinism_witness :
    (exC5a.Perm exC5b ∧ (exC5a.map LogEntry.timestamp).Nodup) ∧
      calculate_daily_totals (sortEntries exC5a) 0 =
        calculate_daily_totals (sortEntries exC5b) 0 :=
  ⟨⟨List.Perm.swap (LogEntry.mk 43200000000 LogStatus.DRIVING)
      (LogEntry.mk 0 LogStatus.OFF) [], by decide⟩,
    claim_C5_sorted_determinism exC5a exC5b 0
      (List.Perm.swap (LogEntry.mk 43200000000 LogStatus.DRIVING)
        (LogEntry.mk 0 LogStatus.OFF) []) (by decide)⟩

lemma insertDay_perm (x : Nat) (l : List Nat) : (insertDay x l).Perm (x :: l) := by
  induction l with
  | nil => exact List.Perm.refl _
  | cons y ys ih =>
    unfold insertDay
    split_ifs with h
    · exact (ih.cons y).trans (List.Perm.swap x y ys)
    · exact List.Perm.refl _

lemma sortDays_perm (l : List Nat) : (sortDays l).Perm l := by
  induction l with
  | nil => exact List.Perm.refl _
  | cons a rest ih =>
    have h : sortDays (a :: rest) = insertDay a (sortDays rest) := rfl
    rw [h]
    exact (insertDay_perm a (sortDays rest)).trans (ih.cons a)

lemma insertDay_sorted (x : Nat) (l : List Nat) (h : l.Pairwise (fun a b => a ≤ b)) :
    (insertDay x l).Pairwise (fun a b => a ≤ b) := by
  induction l with
  | nil => simp [insertDay]
  | cons y ys ih =>
    rw [List.pairwise_cons] at h
    obtain ⟨hy, hys⟩ := h
    unfold insertDay
    split_ifs with hlt
    · rw [List.pairwise_cons]
      constructor
      · intro z hz
        have hz2 := (insertDay_perm x ys).mem_iff.mp hz
        rcases List.mem_cons.mp hz2 with rfl | hz3
        · exact le_of_lt hlt
        · exact hy z hz3
      · exact ih hys
    · rw [List.pairwise_cons]
      constructor
      · intro z hz
        rcases List.mem_cons.mp hz with rfl | hz2
        · exact not_lt.mp hlt
        · exact le_trans (not_lt.mp hlt) (hy z hz2)
      · exact List.pairwise_cons.mpr ⟨hy, hys⟩

lemma sortDays_sorted (l : List Nat) : (sortDays l).Pairwise (fun a b => a ≤ b) := by
  induction l with
  | nil => exact List.Pairwise.nil
  | cons a rest ih => exact insertDay_sorted a (sortDays rest) ih

lemma getD_eq_get_of_lt (l : List Nat) (i : Nat) (h : i < l.length) :
    l.getD i 0 = l.get ⟨i, h⟩ := by
  rw [List.getD_eq_getElem?_getD, List.getElem?_eq_getElem h]
  rfl

/-- C4 counterexample: at `exC4M` the trailing-window sum of
`driving_hours + on_duty_hours` for the day at index 3 (day 3) is 70.01 hours
(7001 centihours), exceeding 70 hours, yet the code emits no "70/8" violation
for that day, because it first floors the hour total of each day to whole minutes
(the windowed minute sum is 4198 ≤ 4200). -/
theorem claim_C4_counterexample :
    claimWindowCent exC4M 3 = 7001 ∧ 7000 < claimWindowCent exC4M 3 ∧
      window_on_duty_min exC4M 3 = 4198 ∧
      (sortDays (keysOf exC4M)).getD 3 0 = 3 ∧
      Violation.mk "70/8" 3 ∉ detect_violations exC4M := by decide

/-- C4 amended: after per-day processing, `detect_violations` sorts the day
keys ascending and, for each day at index i, sums over the trailing window of
up to 8 days [max(0, i-7)..i] the per-day values
`int((driving_hours + on_duty_hours) * 60)` — the hour total of each day
converted to whole minutes — and compares the windowed minute sum against
4200 minutes (70 hours), not the windowed hour sum against 70 hours.  The
per-day conversion is evaluated in floating point and can fall one minute
below its exact value (never above), so the rule is stated with one minute of
slack per window day: a "70/8" violation for the day at index i is emitted
only if the exact windowed minute sum exceeds 4200, and is emitted whenever
the exact windowed minute sum exceeds 4208. -/
theorem claim_C4_weekly_rule (m : List (Nat × List LogEntry))
    (hnd : (keysOf m).Nodup) (i : Nat) (hi : i < (sortDays (keysOf m)).length) :
    (sortDays (keysOf m)).Pairwise (fun a b => a ≤ b) ∧
      (Violation.mk "70/8" ((sortDays (keysOf m)).getD i 0) ∈ detect_violations m →
        4200 < window_on_duty_min m i) ∧
      (4208 < window_on_duty_min m i →
        Violation.mk "70/8" ((sortDays (keysOf m)).getD i 0) ∈ detect_violations m) := by
  have hiff : Violation.mk "70/8" ((sortDays (keysOf m)).getD i 0) ∈ detect_violations m ↔
      4200 < window_on_duty_min m i := by
    have hdays_nodup : (sortDays (keysOf m)).Nodup :=
      ((sortDays_perm (keysOf m)).nodup_iff).mpr hnd
    have hdmem : (sortDays (keysOf m)).getD i 0 ∈ keysOf m := by
      rw [getD_eq_get_of_lt _ i hi]
      exact ((sortDays_perm (keysOf m)).mem_iff).mp (List.get_mem _ i hi)
    obtain ⟨p, hp, hpeq⟩ := List.mem_map.mp hdmem
    have hmem : ((sortDays (keysOf m)).getD i 0, p.2) ∈ m := by
      rw [← hpeq]
      simpa using hp
    rw [mem_detect_iff m _ p.2 "70/8" hnd hmem]
    constructor
    · rintro (h | h)
      · rcases (dayV_mem_props _ _ _ h).2 with hc | hc | hc
        · exact absurd hc (show ¬ ("70/8" : String) = "11H" from by decide)
        · exact absurd hc (show ¬ ("70/8" : String) = "14H" from by decide)
        · exact absurd hc (show ¬ ("70/8" : String) = "30M" from by decide)
      · obtain ⟨j, hj, hcj, hveq⟩ := (weekly_mem m _).mp h
        have hdayeq : (sortDays (keysOf m)).getD i 0 = (sortDays (keysOf m)).getD j 0 :=
          congrArg Violation.day hveq
        rw [getD_eq_get_of_lt _ i hi, getD_eq_get_of_lt _ j hj] at hdayeq
        have hij : i = j := by
          have := (hdays_nodup.getElem_inj_iff).mp hdayeq
          exact this
        rw [hij]
        exact hcj
    · intro h
      refine Or.inr ((weekly_mem m _).mpr ⟨i, hi, h, rfl⟩)
  exact ⟨sortDays_sorted (keysOf m), hiff.mp, fun h => hiff.mpr (by omega)⟩

theorem claim_C4_weekly_rule_witness :
    ((keysOf exC4W).Nodup ∧ 4 < (sortDays (keysOf exC4W)).length ∧
      window_on_duty_min exC4W 4 = 7190 ∧
      Violation.mk "70/8" 4 ∈ detect_violations exC4W) ∧
      ((sortDays (keysOf exC4W)).Pairwise (fun a b => a ≤ b) ∧
        (Violation.mk "70/8" ((sortDays (keysOf exC4W)).getD 4 0) ∈
            detect_violations exC4W →
          4200 < window_on_duty_min exC4W 4) ∧
        (4208 < window_on_duty_min exC4W 4 →
          Violation.mk "70/8" ((sortDays (keysOf exC4W)).getD 4 0) ∈
            detect_violations exC4W)) :=
  ⟨⟨by decide, by decide, by decide, by decide⟩,
    claim_C4_weekly_rule exC4W (by decide) 4 (by decide)⟩

lemma lookup_of_mem_nodup (m : List (Nat × List LogEntry)) (d : Nat)
    (es : List LogEntry) (hnd : (keysOf m).Nodup) (hmem : (d, es) ∈ m) :
    lookupDay m d = some es := by
  induction m with
  | nil => exact absurd hmem (List.not_mem_nil _)
  | cons p rest ih =>
    obtain ⟨hd0, hndr⟩ := List.nodup_cons.mp hnd
    rcases List.mem_cons.mp hmem with heq | hm2
    · have h1 : p.1 = d := by rw [← heq]
      have h2 : p.2 = es := by rw [← heq]
      unfold lookupDay
      rw [if_pos h1, h2]
    · have hdin : d ∈ keysOf rest := List.mem_map.mpr ⟨(d, es), hm2, rfl⟩
      have hpd : p.1 ≠ d := fun h => hd0 (h ▸ hdin)
      unfold lookupDay
      rw [if_neg hpd]
      exact ih hndr hm2

/-- C9 counterexample: a day key mapped to a zero-entry list can still receive
a violation — with seven all-day driving days before it, the empty day 7 is
assigned a "70/8" violation, contradicting "yields no violations for that
day". -/
theorem claim_C9_counterexample :
    lookupDay exC9M 7 = some [] ∧ Violation.mk "70/8" 7 ∈ detect_violations exC9M := by
  decide

/-- C9 amended: `detect_violations` raises no exception on empty input: an
empty entries_by_day mapping yields an empty violation list, and a day key
mapped to a zero-entry list yields no per-day (11H/14H/30M) violations for
that day — any violation carrying that day is a "70/8" from its trailing
window — and contributes 0 driving-plus-on-duty minutes to every trailing
8-day window sum. -/
theorem claim_C9_empty_input (m : List (Nat × List LogEntry)) (d : Nat)
    (hnd : (keysOf m).Nodup) (hmem : (d, ([] : List LogEntry)) ∈ m) :
    detect_violations [] = [] ∧
      (∀ v ∈ detect_violations m, v.day = d → v.code = "70/8") ∧
      day_on_duty_min m d = 0 := by
  refine ⟨rfl, ?_, ?_⟩
  · intro v hv hvd
    have hm : m ≠ [] := by
      intro h
      rw [h] at hmem
      exact absurd hmem (List.not_mem_nil _)
    rw [detect_eq_of_ne_nil m hm] at hv
    rcases List.mem_append.mp hv with h | h
    · have h2 := (perDay_mem_iff m d [] hnd hmem v hvd).mp h
      have h3 : dayViolations d ([] : List LogEntry) = [] := rfl
      rw [h3] at h2
      exact absurd h2 (List.not_mem_nil v)
    · exact weekly_code m v h
  · unfold day_on_duty_min
    rw [lookup_of_mem_nodup m d [] hnd hmem]
    show dayOnDutyMin (calculate_daily_totals (sortEntries []) d) = 0
    rw [show calculate_daily_totals (sortEntries []) d =
      DailyTotals.mk (round_hours 1440) 0 0 0 from rfl]
    decide

theorem claim_C9_empty_input_witness :
    ((keysOf exC9M).Nodup ∧ (7, ([] : List LogEntry)) ∈ exC9M) ∧
      (detect_violations [] = [] ∧
        (∀ v ∈ detect_violations exC9M, v.day = 7 → v.code = "70/8") ∧
        day_on_duty_min exC9M 7 = 0) :=
  ⟨⟨by decide, by decide⟩, claim_C9_empty_input exC9M 7 (by decide) (by decide)⟩

/-! The per-day driving-plus-on-duty minute contribution to the weekly rule is
bounded by 1439 minutes: for a sorted day sequence, the per-interval minute
floors sum to at most the floored span of the whole day window. -/

lemma nat_div_add_div_le (a b k : Nat) (hk : 0 < k) : a / k + b / k ≤ (a + b) / k := by
  rw [Nat.le_div_iff_mul_le hk]
  have h1 := Nat.div_mul_le_self a k
  have h2 := Nat.div_mul_le_self b k
  calc (a / k + b / k) * k = a / k * k + b / k * k := Nat.add_mul _ _ _
    _ ≤ a + b := Nat.add_le_add h1 h2

lemma ivMinutes_eq_toNat_div (t0 t1 : Int) (h : t0 ≤ t1) :
    ivMinutes t0 t1 = (t1 - t0).toNat / 60000000 := by
  unfold ivMinutes
  rw [Int.fdiv_eq_ediv _ (by norm_num : (0 : Int) ≤ 60000000)]
  obtain ⟨n, hn⟩ := Int.eq_ofNat_of_zero_le (by omega : (0 : Int) ≤ t1 - t0)
  rw [hn]
  norm_cast

lemma total_minutes_le (b : Int) (tail : List (Int × LogStatus)) : ∀ (x : Int × LogStatus),
    (x :: tail).Pairwise (fun p q : Int × LogStatus => p.1 ≤ q.1) →
    (∀ p ∈ x :: tail, p.1 ≤ b) →
    ((simpleIntervals (x :: tail)).map Prod.snd).sum ≤ (b - x.1).toNat / 60000000 := by
  induction tail with
  | nil =>
    intro x _ _
    simp [simpleIntervals]
  | cons q rest ih =>
    intro x hchain hb
    have hxq : x.1 ≤ q.1 := (List.pairwise_cons.mp hchain).1 q (List.mem_cons_self q rest)
    have hqb : q.1 ≤ b := hb q (List.mem_cons_of_mem x (List.mem_cons_self q rest))
    have hchain2 := (List.pairwise_cons.mp hchain).2
    have hb2 : ∀ p ∈ q :: rest, p.1 ≤ b := fun p hp => hb p (List.mem_cons_of_mem x hp)
    have hih := ih q hchain2 hb2
    have hiv : ivMinutes x.1 q.1 = (q.1 - x.1).toNat / 60000000 :=
      ivMinutes_eq_toNat_div _ _ hxq
    have hsum : ((simpleIntervals (x :: q :: rest)).map Prod.snd).sum =
        ivMinutes x.1 q.1 + ((simpleIntervals (q :: rest)).map Prod.snd).sum := by
      simp [simpleIntervals]
    rw [hsum, hiv]
    have hsplit : (q.1 - x.1).toNat + (b - q.1).toNat = (b - x.1).toNat := by omega
    calc (q.1 - x.1).toNat / 60000000 + ((simpleIntervals (q :: rest)).map Prod.snd).sum
        ≤ (q.1 - x.1).toNat / 60000000 + (b - q.1).toNat / 60000000 :=
          Nat.add_le_add_left hih _
      _ ≤ ((q.1 - x.1).toNat + (b - q.1).toNat) / 60000000 :=
          nat_div_add_div_le _ _ _ (by norm_num)
      _ = (b - x.1).toNat / 60000000 := by rw [hsplit]

lemma clamp_sublist (start en : Int) (l : List LogEntry) :
    (clampEntries start en l).Sublist (l.map (fun e => (e.timestamp, e.status))) := by
  induction l with
  | nil => exact List.Sublist.refl _
  | cons e rest ih =>
    unfold clampEntries
    split_ifs with h1 h2
    · exact ih.cons _
    · exact List.nil_sublist _
    · exact ih.cons₂ _

lemma clamp_bounds (start en : Int) (l : List LogEntry) :
    ∀ p ∈ clampEntries start en l, start ≤ p.1 ∧ p.1 ≤ en := by
  induction l with
  | nil =>
    intro p hp
    exact absurd hp (List.not_mem_nil p)
  | cons e rest ih =>
    intro p hp
    unfold clampEntries at hp
    split_ifs at hp with h1 h2
    · exact ih p hp
    · exact absurd hp (List.not_mem_nil p)
    · rcases List.mem_cons.mp hp with rfl | hp2
      · exact ⟨by omega, by omega⟩
      · exact ih p hp2

lemma clamp_chain (start en : Int) (l : List LogEntry) (hs : l.Pairwise entLe) :
    (clampEntries start en l).Pairwise (fun p q : Int × LogStatus => p.1 ≤ q.1) := by
  have hmap : (l.map (fun e => (e.timestamp, e.status))).Pairwise
      (fun p q : Int × LogStatus => p.1 ≤ q.1) := by
    rw [List.pairwise_map]
    exact hs
  exact hmap.sublist (clamp_sublist start en l)

lemma seedClose_props (start en : Int) (cl : List (Int × LogStatus)) (hse : start ≤ en)
    (hchain : cl.Pairwise (fun p q : Int × LogStatus => p.1 ≤ q.1))
    (hb : ∀ p ∈ cl, start ≤ p.1 ∧ p.1 ≤ en) :
    (seedAndClose start en cl).Pairwise (fun p q : Int × LogStatus => p.1 ≤ q.1) ∧
      (∀ p ∈ seedAndClose start en cl, start ≤ p.1 ∧ p.1 ≤ en) := by
  cases cl with
  | nil =>
    exact ⟨List.Pairwise.nil, fun p hp => absurd hp (List.not_mem_nil p)⟩
  | cons c0 rest =>
    have hlstmem := List.getLast_mem (List.cons_ne_nil c0 rest)
    obtain ⟨hl1, hl2⟩ := hb _ hlstmem
    have hseedchain : (if start < c0.1 then (start, c0.2) :: c0 :: rest else c0 :: rest).Pairwise
        (fun p q : Int × LogStatus => p.1 ≤ q.1) := by
      split_ifs with hseed
      · exact List.pairwise_cons.mpr ⟨fun q hq => (hb q hq).1, hchain⟩
      · exact hchain
    have hseedb : ∀ p ∈ (if start < c0.1 then (start, c0.2) :: c0 :: rest else c0 :: rest),
        start ≤ p.1 ∧ p.1 ≤ en := by
      split_ifs with hseed
      · intro p hp
        rcases List.mem_cons.mp hp with rfl | hp2
        · exact ⟨le_refl start, hse⟩
        · exact hb p hp2
      · exact hb
    simp only [seedAndClose]
    rw [if_pos hl2]
    constructor
    · apply List.pairwise_append.mpr
      refine ⟨hseedchain, by simp, ?_⟩
      intro a ha b hbmem
      have hb1 : b = (en, ((c0 :: rest).getLast (List.cons_ne_nil c0 rest)).2) := by
        simpa using hbmem
      rw [hb1]
      exact (hseedb a ha).2
    · intro p hp
      rcases List.mem_append.mp hp with hp1 | hp1
      · exact hseedb p hp1
      · have hp2 : p = (en, ((c0 :: rest).getLast (List.cons_ne_nil c0 rest)).2) := by
          simpa using hp1
        rw [hp2]
        exact ⟨hse, le_refl en⟩

lemma buildSeq_total_le (d : Nat) (es : List LogEntry) :
    ((simpleIntervals (buildSeq d (sortEntries es))).map Prod.snd).sum ≤ 1439 := by
  have hchain := clamp_chain (dayStart d) (dayEnd d) (sortEntries es) (sortEntries_sorted es)
  have hbounds := clamp_bounds (dayStart d) (dayEnd d) (sortEntries es)
  have hse : dayStart d ≤ dayEnd d := by
    unfold dayEnd
    omega
  obtain ⟨hc2, hb2⟩ := seedClose_props (dayStart d) (dayEnd d) _ hse hchain hbounds
  rcases hsq : seedAndClose (dayStart d) (dayEnd d)
      (clampEntries (dayStart d) (dayEnd d) (sortEntries es)) with _ | ⟨x, tail⟩
  · unfold buildSeq
    rw [hsq]
    simp [simpleIntervals]
  · rw [hsq] at hc2 hb2
    unfold buildSeq
    rw [hsq]
    have h := total_minutes_le (dayEnd d) tail x hc2 (fun p hp => (hb2 p hp).2)
    have hx : dayStart d ≤ x.1 := (hb2 x (List.mem_cons_self x tail)).1
    have hmono : (dayEnd d - x.1).toNat ≤ 86399999999 := by
      unfold dayEnd dayStart at *
      omega
    calc ((simpleIntervals (x :: tail)).map Prod.snd).sum
        ≤ (dayEnd d - x.1).toNat / 60000000 := h
      _ ≤ 86399999999 / 60000000 := Nat.div_le_div_right hmono
      _ = 1439 := by norm_num

lemma statusMinutes_pair_le (s1 s2 : LogStatus) (hne : s1 ≠ s2)
    (l : List (LogStatus × Nat)) :
    statusMinutes s1 l + statusMinutes s2 l ≤ (l.map Prod.snd).sum := by
  induction l with
  | nil => simp [statusMinutes]
  | cons sm rest ih =>
    simp only [statusMinutes, List.map_cons, List.sum_cons]
    by_cases h1 : sm.1 = s1
    · have h2 : ¬ sm.1 = s2 := fun hc => hne (h1 ▸ hc)
      rw [if_pos h1, if_neg h2]
      omega
    · rw [if_neg h1]
      by_cases h2 : sm.1 = s2
      · rw [if_pos h2]
        omega
      · rw [if_neg h2]
        omega

lemma day_on_duty_min_le (m : List (Nat × List LogEntry)) (d : Nat) :
    day_on_duty_min m d ≤ 1439 := by
  unfold day_on_duty_min
  rcases hl : lookupDay m d with _ | es
  · simp
  · show dayOnDutyMin (calculate_daily_totals (sortEntries es) d) ≤ 1439
    unfold calculate_daily_totals
    rcases hcl : clampEntries (dayStart d) (dayEnd d) (sortEntries es) with _ | ⟨c0, rest⟩
    · show dayOnDutyMin (DailyTotals.mk (round_hours 1440) 0 0 0) ≤ 1439
      decide
    · show 3 * (round_hours (statusMinutes LogStatus.DRIVING
          (simpleIntervals (buildSeq d (sortEntries es)))) +
        round_hours (statusMinutes LogStatus.ON_DUTY
          (simpleIntervals (buildSeq d (sortEntries es))))) / 5 ≤ 1439
      have hsum := buildSeq_total_le d es
      have hpair := statusMinutes_pair_le LogStatus.DRIVING LogStatus.ON_DUTY (by decide)
        (simpleIntervals (buildSeq d (sortEntries es)))
      have hab : statusMinutes LogStatus.DRIVING (simpleIntervals (buildSeq d (sortEntries es))) +
          statusMinutes LogStatus.ON_DUTY (simpleIntervals (buildSeq d (sortEntries es))) ≤
            1439 := le_trans hpair hsum
      have hround : round_hours (statusMinutes LogStatus.DRIVING
            (simpleIntervals (buildSeq d (sortEntries es)))) +
          round_hours (statusMinutes LogStatus.ON_DUTY
            (simpleIntervals (buildSeq d (sortEntries es)))) ≤ 2399 := by
        unfold round_hours
        calc (10 * statusMinutes LogStatus.DRIVING
              (simpleIntervals (buildSeq d (sortEntries es))) + 3) / 6 +
            (10 * statusMinutes LogStatus.ON_DUTY
              (simpleIntervals (buildSeq d (sortEntries es))) + 3) / 6
            ≤ ((10 * statusMinutes LogStatus.DRIVING
              (simpleIntervals (buildSeq d (sortEntries es))) + 3) +
              (10 * statusMinutes LogStatus.ON_DUTY
              (simpleIntervals (buildSeq d (sortEntries es))) + 3)) / 6 :=
              nat_div_add_div_le _ _ _ (by norm_num)
          _ ≤ 14396 / 6 := Nat.div_le_div_right (by omega)
          _ = 2399 := by norm_num
      calc 3 * (round_hours (statusMinutes LogStatus.DRIVING
              (simpleIntervals (buildSeq d (sortEntries es)))) +
            round_hours (statusMinutes LogStatus.ON_DUTY
              (simpleIntervals (buildSeq d (sortEntries es))))) / 5
          ≤ 3 * 2399 / 5 := Nat.div_le_div_right (Nat.mul_le_mul_left 3 hround)
        _ = 1439 := by norm_num

lemma sum_le_of_bound (l : List Nat) (n : Nat) (h : ∀ x ∈ l, x ≤ n) :
    l.sum ≤ l.length * n := by
  induction l with
  | nil => simp
  | cons x rest ih =>
    simp only [List.sum_cons, List.length_cons]
    have hx := h x (List.mem_cons_self x rest)
    have hr := ih (fun y hy => h y (List.mem_cons_of_mem x hy))
    calc x + rest.sum ≤ n + rest.length * n := Nat.add_le_add hx hr
      _ = (rest.length + 1) * n := by ring

lemma window_on_duty_min_le (m : List (Nat × List LogEntry)) (i : Nat)
    (hlen : (keysOf m).length ≤ 2) : window_on_duty_min m i ≤ 2878 := by
  unfold window_on_duty_min
  have hlenw : ((((sortDays (keysOf m)).take (i + 1)).drop (i - 7)).map
      (day_on_duty_min m)).length ≤ 2 := by
    rw [List.length_map, List.length_drop, List.length_take]
    have h3 : (sortDays (keysOf m)).length = (keysOf m).length :=
      (sortDays_perm (keysOf m)).length_eq
    omega
  have hall : ∀ x ∈ (((sortDays (keysOf m)).take (i + 1)).drop (i - 7)).map
      (day_on_duty_min m), x ≤ 1439 := by
    intro x hx
    obtain ⟨dd, _, rfl⟩ := List.mem_map.mp hx
    exact day_on_duty_min_le m dd
  calc ((((sortDays (keysOf m)).take (i + 1)).drop (i - 7)).map (day_on_duty_min m)).sum
      ≤ ((((sortDays (keysOf m)).take (i + 1)).drop (i - 7)).map
          (day_on_duty_min m)).length * 1439 := sum_le_of_bound _ _ hall
    _ ≤ 2 * 1439 := Nat.mul_le_mul_right _ hlenw
    _ = 2878 := by norm_num

/-- C10: with at most two distinct day keys, `detect_violations` never emits a
"70/8" violation: each day contributes at most 1439 driving-plus-on-duty
minutes (the per-interval minute floors within one sorted day sum to at most
1439), so every trailing window over at most two days totals at most 2878
minutes, below the 4200-minute (70-hour) threshold. -/
theorem claim_C10_two_days (m : List (Nat × List LogEntry))
    (hnd : (keysOf m).Nodup) (hlen : (keysOf m).length ≤ 2) :
    ∀ v ∈ detect_violations m, v.code ≠ "70/8" := by
  intro v hv
  unfold detect_violations at hv
  rcases List.mem_append.mp hv with h | h
  · rcases perDay_mem_codes m v h with hc | hc | hc <;> rw [hc] <;> decide
  · by_cases hie : m.isEmpty = true
    · rw [if_pos hie] at h
      exact absurd h (List.not_mem_nil v)
    · rw [if_neg hie] at h
      obtain ⟨i, _, hcond, _⟩ := (weekly_mem m v).mp h
      have hbound := window_on_duty_min_le m i hlen
      omega

theorem claim_C10_two_days_witness :
    ((keysOf exC10M).Nodup ∧ (keysOf exC10M).length ≤ 2) ∧
      ∀ v ∈ detect_violations exC10M, v.code ≠ "70/8" :=
  ⟨⟨by decide, by decide⟩, claim_C10_two_days exC10M (by decide) (by decide)⟩

/-! Counting lemmas for C8: at most one violation per (day, code) pair. -/

lemma countP_le_one_unique {α : Type} (l : List α) (q : α → Bool) (hnd : l.Nodup)
    (huniq : ∀ a ∈ l, ∀ b ∈ l, q a = true → q b = true → a = b) : l.countP q ≤ 1 := by
  induction l with
  | nil => simp
  | cons x rest ih =>
    rw [List.countP_cons]
    obtain ⟨hx, hndr⟩ := List.nodup_cons.mp hnd
    have ihr := ih hndr (fun a ha b hb hqa hqb =>
      huniq a (List.mem_cons_of_mem x ha) b (List.mem_cons_of_mem x hb) hqa hqb)
    by_cases hqx : q x = true
    · have hrest : rest.countP q = 0 := by
        rw [List.countP_eq_zero]
        intro a ha hqa
        have heq := huniq a (List.mem_cons_of_mem x ha) x (List.mem_cons_self x rest) hqa hqx
        exact hx (heq ▸ ha)
      rw [hrest]
      simp [hqx]
    · have hqx2 : q x = false := by
        cases hq2 : q x
        · rfl
        · exact absurd hq2 hqx
      rw [hqx2]
      simpa using ihr

lemma weekly_countP_le (m : List (Nat × List LogEntry)) (hnd : (keysOf m).Nodup)
    (c : String) (d : Nat) :
    (seventy_eight_violations m).countP
      (fun v => decide (v.code = c ∧ v.day = d)) ≤ 1 := by
  have hdays_nodup : (sortDays (keysOf m)).Nodup :=
    ((sortDays_perm (keysOf m)).nodup_iff).mpr hnd
  unfold seventy_eight_violations
  rw [List.countP_filterMap]
  apply countP_le_one_unique
  · exact List.nodup_range _
  · intro a ha b hb hqa hqb
    rw [List.mem_range] at ha hb
    by_cases hca : 4200 < window_on_duty_min m a
    · by_cases hcb : 4200 < window_on_duty_min m b
      · rw [if_pos hca] at hqa
        rw [if_pos hcb] at hqb
        simp at hqa hqb
        obtain ⟨_, hda⟩ := hqa
        obtain ⟨_, hdb⟩ := hqb
        rw [List.getElem?_eq_getElem ha] at hda
        rw [List.getElem?_eq_getElem hb] at hdb
        simp at hda hdb
        exact (hdays_nodup.getElem_inj_iff).mp (hda.trans hdb.symm)
      · rw [if_neg hcb] at hqb
        simp at hqb
    · rw [if_neg hca] at hqa
      simp at hqa

lemma countP_ite_le (q : Violation → Bool) (p : Prop) [Decidable p] (v : Violation) :
    (if p then [v] else []).countP q ≤ if q v = true then 1 else 0 := by
  split_ifs with hp hq
  · simp [List.countP_cons, hq]
  · simp [List.countP_cons, hq]
  · simp
  · simp

lemma countP_ite_zero (q : Violation → Bool) (p : Prop) [Decidable p] (v : Violation)
    (h : q v = false) : (if p then [v] else []).countP q = 0 := by
  split_ifs with hp
  · simp [List.countP_cons, h]
  · simp

lemma countP_ite_le_one (q : Violation → Bool) (p : Prop) [Decidable p] (v : Violation) :
    (if p then [v] else []).countP q ≤ 1 := by
  split_ifs with hp
  · rw [List.countP_cons, List.countP_nil]
    cases q v <;> simp
  · simp

lemma q_mk_false (c : String) (d d0 : Nat) (s : String) (hne : ¬ s = c) :
    (fun v : Violation => decide (v.code = c ∧ v.day = d)) (Violation.mk s d0) = false := by
  apply decide_eq_false
  rintro ⟨h1, _⟩
  exact hne h1

lemma dayV_countP_le (d0 : Nat) (es : List LogEntry) (c : String) (d : Nat) :
    (dayViolations d0 es).countP (fun v => decide (v.code = c ∧ v.day = d)) ≤ 1 := by
  unfold dayViolations
  rcases buildSeq d0 (sortEntries es) with _ | ⟨c0, rest⟩
  · show (([] : List Violation).countP (fun v => decide (v.code = c ∧ v.day = d))) ≤ 1
    simp
  · rw [List.countP_append, List.countP_append]
    by_cases e1 : ("11H" : String) = c
    · have f2 := q_mk_false c d d0 "14H" (fun h => absurd (e1.trans h.symm) (by decide))
      have f3 := q_mk_false c d d0 "30M" (fun h => absurd (e1.trans h.symm) (by decide))
      rw [countP_ite_zero (fun v : Violation => decide (v.code = c ∧ v.day = d))
        (840 < (runDay (c0 :: rest)).max_window_span_min) (Violation.mk "14H" d0) f2]
      rw [countP_ite_zero (fun v : Violation => decide (v.code = c ∧ v.day = d))
        ((runDay (c0 :: rest)).had_violation_30 = true) (Violation.mk "30M" d0) f3]
      have h11 := countP_ite_le_one (fun v : Violation => decide (v.code = c ∧ v.day = d))
        (660 < (runDay (c0 :: rest)).max_driving_since_reset_min) (Violation.mk "11H" d0)
      omega
    · by_cases e2 : ("14H" : String) = c
      · have f1 := q_mk_false c d d0 "11H" (fun h => absurd (e2.trans h.symm) (by decide))
        have f3 := q_mk_false c d d0 "30M" (fun h => absurd (e2.trans h.symm) (by decide))
        rw [countP_ite_zero (fun v : Violation => decide (v.code = c ∧ v.day = d))
          (660 < (runDay (c0 :: rest)).max_driving_since_reset_min) (Violation.mk "11H" d0) f1]
        rw [countP_ite_zero (fun v : Violation => decide (v.code = c ∧ v.day = d))
          ((runDay (c0 :: rest)).had_violation_30 = true) (Violation.mk "30M" d0) f3]
        have h14 := countP_ite_le_one (fun v : Violation => decide (v.code = c ∧ v.day = d))
          (840 < (runDay (c0 :: rest)).max_window_span_min) (Violation.mk "14H" d0)
        omega
      · have f1 := q_mk_false c d d0 "11H" e1
        have f2 := q_mk_false c d d0 "14H" e2
        rw [countP_ite_zero (fun v : Violation => decide (v.code = c ∧ v.day = d))
          (660 < (runDay (c0 :: rest)).max_driving_since_reset_min) (Violation.mk "11H" d0) f1]
        rw [countP_ite_zero (fun v : Violation => decide (v.code = c ∧ v.day = d))
          (840 < (runDay (c0 :: rest)).max_window_span_min) (Violation.mk "14H" d0) f2]
        have h30 := countP_ite_le_one (fun v : Violation => decide (v.code = c ∧ v.day = d))
          ((runDay (c0 :: rest)).had_violation_30 = true) (Violation.mk "30M" d0)
        omega

lemma perDay_countP_le (m : List (Nat × List LogEntry)) (c : String) (d : Nat)
    (hnd : (keysOf m).Nodup) :
    (per_day_violations m).countP (fun v => decide (v.code = c ∧ v.day = d)) ≤ 1 := by
  induction m with
  | nil => simp [per_day_violations]
  | cons p0 rest ih =>
    obtain ⟨hk, hndr⟩ := List.nodup_cons.mp hnd
    rw [show per_day_violations (p0 :: rest) =
      dayViolations p0.1 p0.2 ++ per_day_violations rest from rfl]
    rw [List.countP_append]
    by_cases hpd : p0.1 = d
    · have hrest : (per_day_violations rest).countP
          (fun v => decide (v.code = c ∧ v.day = d)) = 0 := by
        rw [List.countP_eq_zero]
        intro v hv hq
        obtain ⟨_, hd2⟩ := of_decide_eq_true hq
        have hmem := perDay_mem_day rest v hv
        rw [hd2] at hmem
        rw [hpd] at hk
        exact hk hmem
      rw [hrest]
      have hday := dayV_countP_le p0.1 p0.2 c d
      omega
    · have hblock : (dayViolations p0.1 p0.2).countP
          (fun v => decide (v.code = c ∧ v.day = d)) = 0 := by
        rw [List.countP_eq_zero]
        intro v hv hq
        obtain ⟨_, hd2⟩ := of_decide_eq_true hq
        have hvd := (dayV_mem_props p0.1 p0.2 v hv).1
        exact hpd (by rw [← hvd, hd2])
      rw [hblock]
      simpa using ih hndr

/-- C8: for every input mapping (with the dict invariant of unique day keys),
the list returned by `detect_violations` contains at most one violation per
(day, code) pair. -/
theorem claim_C8_no_duplicates (m : List (Nat × List LogEntry))
    (hnd : (keysOf m).Nodup) (c : String) (d : Nat) :
    (detect_violations m).countP (fun v => decide (v.code = c ∧ v.day = d)) ≤ 1 := by
  unfold detect_violations
  rw [List.countP_append]
  by_cases hc : c = "70/8"
  · have hper : (per_day_violations m).countP
        (fun v => decide (v.code = c ∧ v.day = d)) = 0 := by
      rw [List.countP_eq_zero]
      intro v hv hq
      obtain ⟨hc2, _⟩ := of_decide_eq_true hq
      rw [hc] at hc2
      rcases perDay_mem_codes m v hv with h | h | h <;> rw [h] at hc2 <;>
        exact absurd hc2 (by decide)
    rw [hper]
    by_cases hie : m.isEmpty = true
    · rw [if_pos hie, List.countP_nil]
      omega
    · rw [if_neg hie]
      have := weekly_countP_le m hnd c d
      omega
  · have hweek : ∀ l ∈ [seventy_eight_violations m], l.countP
        (fun v => decide (v.code = c ∧ v.day = d)) = 0 := by
      intro l hl
      rw [List.mem_singleton.mp hl, List.countP_eq_zero]
      intro v hv hq
      obtain ⟨hc2, _⟩ := of_decide_eq_true hq
      have := weekly_code m v hv
      rw [this] at hc2
      exact hc (hc2.symm)
    have hper := perDay_countP_le m c d hnd
    by_cases hie : m.isEmpty = true
    · rw [if_pos hie, List.countP_nil]
      omega
    · rw [if_neg hie]
      have h0 := hweek (seventy_eight_violations m) (List.mem_singleton_self _)
      omega

theorem claim_C8_no_duplicates_witness :
    ((keysOf exC3M).Nodup ∧
      (detect_violations exC3M).countP
        (fun v => decide (v.code = "30M" ∧ v.day = 0)) = 1) ∧
      (detect_violations exC3M).countP
        (fun v => decide (v.code = "30M" ∧ v.day = 0)) ≤ 1 :=
  ⟨⟨by decide, by decide⟩, claim_C8_no_duplicates exC3M (by decide) "30M" 0⟩
